import Mathlib

/-!
Shallow embedding of the `dependencies` module of the `extricrate` crate
(`crates/extricrate/src/lib.rs`): module names, use-tree flattening, the
file/module walker and the dependency-graph builder, together with proofs
of the specification claims.

The file system is modelled by a finite association list from paths
(lists of path segments) to file outcomes: unreadable, unparsable, or a
parsed file (its list of items).  Source positions (spans) are opaque to
every operation treated here and are not modelled.  The walker's loop is
embedded with explicit fuel; totality for the fuel chosen by
`list_use_statements` is proved (claim C9).
-/

namespace Extricrate

/-- Module names are plain strings (the Rust `ModuleName` newtype over `String`). -/
abbrev ModuleName := String

/-- File paths, as lists of path segments (each Rust `Path` component is a segment). -/
abbrev FsPath := List String

/-- The `should_remove_prefix` from the source: an import name denotes an item
rather than a sub-module when it is `self` or starts with an upper-case
character. -/
def should_remove_prefix (import_name : String) : Bool :=
  (import_name == "self") ||
    ((import_name.toList.head?.map Char.isUpper).getD false)

/-- The `UseStatementType` from the source. -/
inductive UseStatementType
  | Simple (name : String)
  | Alias (old new : String)
  | WildCard
deriving DecidableEq

/-- The `NormalizedUseStatement` from the source: one fully flattened leaf import. -/
structure NormalizedUseStatement where
  module_name : ModuleName
  statement_type : UseStatementType
deriving DecidableEq

/-- The `NormalizedUseStatement::get_module` from the source. -/
def NormalizedUseStatement.get_module (s : NormalizedUseStatement) : ModuleName :=
  match s.statement_type with
  | .Simple name =>
    if should_remove_prefix name then s.module_name
    else s.module_name ++ "::" ++ name
  | .Alias old _ =>
    if should_remove_prefix old then s.module_name
    else s.module_name ++ "::" ++ old
  | .WildCard => s.module_name

/-- The `syn::UseTree` shapes consumed by the flattener. -/
inductive UseTree
  | Path (ident : String) (tree : UseTree)
  | Name (ident : String)
  | Rename (ident rename : String)
  | Glob
  | Group (items : List UseTree)

/-- The `desugar_self_import` closure from `flatten_use_tree`: compute the
module path and recorded import name for a leaf identifier under the
accumulated prefix. -/
def desugar_self_import (pfx : List String) (ident : String) : ModuleName × String :=
  if ! should_remove_prefix ident then
    (String.intercalate "::" (pfx ++ [ident]), "self")
  else
    (String.intercalate "::" pfx, ident)

mutual

/-- The `flatten_use_tree` from the source: flatten one use tree into leaf
records, resolving `self`/`super` path markers against the ancestor chain. -/
def flatten_use_tree (ancestors pfx : List String) : UseTree → List NormalizedUseStatement
  | .Path ident subtree =>
    let newPfx : List String :=
      if ident = "self" then "crate" :: ancestors
      else if ident = "super" then ("crate" :: ancestors).dropLast
      else pfx ++ [ident]
    flatten_use_tree ancestors newPfx subtree
  | .Name ident =>
    [{ module_name := (desugar_self_import pfx ident).1,
       statement_type := .Simple (desugar_self_import pfx ident).2 }]
  | .Rename ident rename =>
    [{ module_name := (desugar_self_import pfx ident).1,
       statement_type := .Alias (desugar_self_import pfx ident).2 rename }]
  | .Glob =>
    [{ module_name := String.intercalate "::" pfx,
       statement_type := .WildCard }]
  | .Group items => flatten_use_trees ancestors pfx items

/-- Flattening of a group's children, concatenated left to right. -/
def flatten_use_trees (ancestors pfx : List String) : List UseTree → List NormalizedUseStatement
  | [] => []
  | t :: ts => flatten_use_tree ancestors pfx t ++ flatten_use_trees ancestors pfx ts

end

/-- The file items the visitor inspects: `use` declarations, `mod`
declarations (with an optional inline body), and anything else. -/
inductive Item
  | itemUse (tree : UseTree)
  | itemMod (ident : String) (content : Option (List Item))
  | itemOther

/-- The `ModStatement` from the source: a sub-module declaration is external
(no body) or inline (body in the same file). -/
inductive ModStatement
  | external (ident : String)
  | inline (ident : String)
deriving DecidableEq

mutual

/-- The `mod_statements` contributed by one item: each `mod` is recorded
before its inline body is entered (`Visitor::visit_item_mod`). -/
def collectModsOfItem : Item → List ModStatement
  | .itemUse _ => []
  | .itemMod id (some content) => .inline id :: collectMods content
  | .itemMod id none => [.external id]
  | .itemOther => []

/-- The `mod_statements` list collected by the visitor over a list of
items, in visit (pre-)order. -/
def collectMods : List Item → List ModStatement
  | [] => []
  | i :: rest => collectModsOfItem i ++ collectMods rest

end

/-- The `UseStatement` from the source (the span is not modelled). -/
structure UseStatement where
  source_module : ModuleName
  target_modules : Finset ModuleName
  items : List NormalizedUseStatement
deriving DecidableEq

/-- The `UseStatement` built by `Visitor::visit_item_use` for one `use` item
under the given ancestor chain. -/
def mkUseStatement (ancestors : List String) (tree : UseTree) : UseStatement :=
  let items := flatten_use_tree ancestors [] tree
  { source_module := String.intercalate "::" ("crate" :: ancestors)
    target_modules := (items.map NormalizedUseStatement.get_module).toFinset
    items := items }

mutual

/-- The `use_statements` contributed by one item, with the live ancestor
stack pushed on entering an inline module body and popped on leaving. -/
def collectUsesOfItem (ancestors : List String) : Item → List UseStatement
  | .itemUse t => [mkUseStatement ancestors t]
  | .itemMod id (some content) => collectUses (ancestors ++ [id]) content
  | .itemMod _ none => []
  | .itemOther => []

/-- The `use_statements` list collected by the visitor over a list of items. -/
def collectUses (ancestors : List String) : List Item → List UseStatement
  | [] => []
  | i :: rest => collectUsesOfItem ancestors i ++ collectUses ancestors rest

end

/-- The `ListUseStatementError` from the source. -/
inductive ListUseStatementError
  | FileNotFound
  | FileNotParsable
  | FileNotReadable
  | PathIsNotACrate
  | ModuleDoesNotExist (m : String)
  | CrateEntrypointNotFound
  | SourceFileForModuleNotFound (m : String)
deriving DecidableEq

/-- What happens when a file on disk is read and parsed: reading fails,
parsing fails, or a parsed item list is produced. -/
inductive FileOutcome
  | unreadable
  | unparsable
  | parsed (items : List Item)

/-- A finite file system: an association list from paths to file outcomes.
A path exists iff it has an entry. -/
abbrev FileSystem := List (FsPath × FileOutcome)

/-- Look a path up in the file system. -/
def fsLookup (fs : FileSystem) (p : FsPath) : Option FileOutcome :=
  (fs.find? (fun e => e.1 == p)).map (fun e => e.2)

/-- The `Path::exists`. -/
def fsExists (fs : FileSystem) (p : FsPath) : Bool :=
  (fsLookup fs p).isSome

/-- The `get_crate_entrypoint` from the source: require `Cargo.toml` at the
root, then prefer `src/main.rs`, else `src/lib.rs`. -/
def get_crate_entrypoint (fs : FileSystem) (crate_root : FsPath) :
    Except ListUseStatementError FsPath :=
  if ! fsExists fs (crate_root ++ ["Cargo.toml"]) then
    .error .PathIsNotACrate
  else if fsExists fs (crate_root ++ ["src", "main.rs"]) then
    .ok (crate_root ++ ["src", "main.rs"])
  else if fsExists fs (crate_root ++ ["src", "lib.rs"]) then
    .ok (crate_root ++ ["src", "lib.rs"])
  else
    .error .CrateEntrypointNotFound

/-- The `mod_to_path` from the source: resolve a declared external module to
`src/<ancestors>/<ident>.rs`, else `src/<ancestors>/<ident>/mod.rs`. -/
def mod_to_path (fs : FileSystem) (crate_root : FsPath) (ancestors : List String)
    (ident : String) : Except ListUseStatementError FsPath :=
  let root_path := crate_root ++ ["src"] ++ ancestors
  let file_module := root_path ++ [ident ++ ".rs"]
  let folder_module := root_path ++ [ident, "mod.rs"]
  if fsExists fs file_module then .ok file_module
  else if fsExists fs folder_module then .ok folder_module
  else .error (.SourceFileForModuleNotFound ident)

/-- The `FileToVisit` from the source. -/
structure FileToVisit where
  file : FsPath
  module_ancestors : List String

/-- The walker's per-file loop over collected `mod` statements: resolve
every external sub-module (with the visited file's ancestor chain) and
build the queue entries, aborting on the first resolution error. -/
def resolveMods (fs : FileSystem) (crate_root : FsPath) (anc : List String) :
    List ModStatement → Except ListUseStatementError (List FileToVisit)
  | [] => .ok []
  | .inline _ :: rest => resolveMods fs crate_root anc rest
  | .external id :: rest => do
    let f ← mod_to_path fs crate_root anc id
    let others ← resolveMods fs crate_root anc rest
    .ok (⟨f, anc ++ [id]⟩ :: others)

/-- The identifiers of the external `mod` statements, in order. -/
def externalIdents (ms : List ModStatement) : List String :=
  ms.filterMap fun m => match m with
    | .external id => some id
    | .inline _ => none

/-- The `Path::strip_prefix(crate_root).unwrap_or(path)`. -/
def stripCrateRoot (crate_root : FsPath) (p : FsPath) : FsPath :=
  if crate_root.isPrefixOf p then p.drop crate_root.length else p

/-- The map key under which a visited file's statements are stored:
its path relative to the crate root, rendered as a string. -/
def fileKey (crate_root : FsPath) (p : FsPath) : String :=
  String.intercalate "/" (stripCrateRoot crate_root p)

/-- The `UseStatementMap`: map from file key to its use statements, as an
association list; `insert` replaces the value of an existing key. -/
abbrev UseStatementMap := List (String × List UseStatement)

/-- The `HashMap::insert`: replace the entry if the key is present, else add it. -/
def mapInsert (m : UseStatementMap) (k : String) (v : List UseStatement) :
    UseStatementMap :=
  match m with
  | [] => [(k, v)]
  | e :: rest => if e.1 == k then (k, v) :: rest else e :: mapInsert rest k v

/-- The walker's work loop (`while let Some(file_to_visit) = ...`) with
explicit fuel: pop the queue; skip visited files; fail on missing,
unreadable or unparsable files; otherwise collect the file's statements,
enqueue its resolved external sub-modules, record its use statements and
mark it visited.  Returns the map together with the visited list. -/
def walk (fs : FileSystem) (crate_root : FsPath) :
    Nat → List FileToVisit → List FsPath → UseStatementMap →
    Option (Except ListUseStatementError (UseStatementMap × List FsPath))
  | 0, _, _, _ => none
  | _ + 1, [], visited, m => some (.ok (m, visited))
  | fuel + 1, f :: queue, visited, m =>
    if f.file ∈ visited then walk fs crate_root fuel queue visited m
    else
      match fsLookup fs f.file with
      | none => some (.error .FileNotFound)
      | some .unreadable => some (.error .FileNotReadable)
      | some .unparsable => some (.error .FileNotParsable)
      | some (.parsed items) =>
        match resolveMods fs crate_root f.module_ancestors (collectMods items) with
        | .error e => some (.error e)
        | .ok newFiles =>
          walk fs crate_root fuel (queue ++ newFiles) (f.file :: visited)
            (mapInsert m (fileKey crate_root f.file)
              (collectUses f.module_ancestors items))

/-- The distinct paths present in the file system. -/
def fsPaths (fs : FileSystem) : List FsPath :=
  (fs.map Prod.fst).dedup

/-- The number of on-disk files not yet visited: the measure that shrinks
every time the walker processes a new file. -/
def remainingCount (fs : FileSystem) (visited : List FsPath) : Nat :=
  ((fsPaths fs).filter (fun p => decide (p ∉ visited))).length

/-- An upper bound on the number of `mod` statements collected from any
single file of the file system. -/
def modBound (fs : FileSystem) : Nat :=
  fs.foldr
    (fun e acc =>
      max (match e.2 with
           | .parsed items => (collectMods items).length
           | _ => 0) acc)
    0

/-- Fuel sufficient for the walk to drain its queue (claim C9): one unit
per queue entry plus, for every not-yet-visited on-disk file, one unit for
processing it and one per queue entry it can add. -/
def fuelBound (fs : FileSystem) : Nat :=
  (fsPaths fs).length * (modBound fs + 1) + 2

/-- The `list_use_statements` from the source, keeping the final visited list
alongside the map. -/
def list_use_statements_full (fs : FileSystem) (crate_root : FsPath) :
    Option (Except ListUseStatementError (UseStatementMap × List FsPath)) :=
  match get_crate_entrypoint fs crate_root with
  | .error e => some (.error e)
  | .ok entry_point => walk fs crate_root (fuelBound fs) [⟨entry_point, []⟩] [] []

/-- The `list_use_statements` from the source: list all `use` statements in the
crate, by file. -/
def list_use_statements (fs : FileSystem) (crate_root : FsPath) :
    Option (Except ListUseStatementError UseStatementMap) :=
  (list_use_statements_full fs crate_root).map (Except.map Prod.fst)

/-- The `ModuleDependencies`: map from module to the set of modules it imports
from, as an association list. -/
abbrev ModuleDependencies := List (ModuleName × Finset ModuleName)

/-- The `module_dependencies.entry(src).or_default().extend(tgts)`: union the
targets into the entry of `src`, creating an empty entry first if absent. -/
def depInsert (g : ModuleDependencies) (src : ModuleName) (tgts : List ModuleName) :
    ModuleDependencies :=
  match g with
  | [] => [(src, ∅ ∪ tgts.toFinset)]
  | e :: rest =>
    if e.1 == src then (e.1, e.2 ∪ tgts.toFinset) :: rest
    else e :: depInsert rest src tgts

/-- The `list_dependencies` from the source: fold every use statement of every
file into the graph entry of its source module. -/
def list_dependencies (use_statements : UseStatementMap) : ModuleDependencies :=
  use_statements.foldl
    (fun acc e =>
      e.2.foldl
        (fun acc u => depInsert acc u.source_module (u.items.map (fun i => i.module_name)))
        acc)
    []

/-- Look a module up in the dependency graph. -/
def depLookup (g : ModuleDependencies) (k : ModuleName) : Option (Finset ModuleName) :=
  (g.find? (fun e => e.1 == k)).map (fun e => e.2)

/-- The flat list of `(source module, target module names)` records of
an import index, in file order. -/
def depRecords (m : UseStatementMap) : List (ModuleName × List ModuleName) :=
  m.flatMap (fun e => e.2.map (fun u => (u.source_module, u.items.map (fun i => i.module_name))))

/-- Fold a flat record list into a dependency graph. -/
def buildDeps (g : ModuleDependencies) (rs : List (ModuleName × List ModuleName)) :
    ModuleDependencies :=
  rs.foldl (fun g r => depInsert g r.1 r.2) g

/-- The records of a record list whose source module is `k`. -/
def depRecordsFor (rs : List (ModuleName × List ModuleName)) (k : ModuleName) :
    List (ModuleName × List ModuleName) :=
  rs.filter (fun r => r.1 == k)

/-- The union of the target sets of all records for `k`, as a multiset
supremum (hence invariant under reordering of the records). -/
def depSup (rs : List (ModuleName × List ModuleName)) (k : ModuleName) :
    Finset ModuleName :=
  ((depRecordsFor rs k).map (fun r => r.2.toFinset) : Multiset (Finset ModuleName)).sup

/-- Flattening a group is the concatenation of the children's flattenings. -/
theorem flatten_use_trees_eq_flatMap (ancestors pfx : List String) (items : List UseTree) :
    flatten_use_trees ancestors pfx items =
      items.flatMap (flatten_use_tree ancestors pfx) := by
  induction items with
  | nil => rfl
  | cons t ts ih => simp [flatten_use_trees, ih]

/-- C4: a path segment equal to the current-module marker `self`, flattened
with ancestor chain `[a, b]`, resets the accumulated prefix to
`crate::a::b` (the package root followed by the full ancestor chain), and
the parent-module marker `super` resets it to `crate::a` (the chain minus
its last element); the previously accumulated prefix is discarded in both
cases (and, in general, `self` resets to `crate :: anc` and `super` to
`(crate :: anc).dropLast`). -/
theorem c4_marker_prefix_reset (a b : String) (pfx : List String) (t : UseTree) :
    (flatten_use_tree [a, b] pfx (.Path "self" t) =
       flatten_use_tree [a, b] ["crate", a, b] t) ∧
    (flatten_use_tree [a, b] pfx (.Path "super" t) =
       flatten_use_tree [a, b] ["crate", a] t) ∧
    (∀ anc : List String,
      flatten_use_tree anc pfx (.Path "self" t) =
        flatten_use_tree anc ("crate" :: anc) t ∧
      flatten_use_tree anc pfx (.Path "super" t) =
        flatten_use_tree anc (("crate" :: anc).dropLast) t) := by
  refine ⟨?_, ?_, fun anc => ⟨?_, ?_⟩⟩ <;> rw [flatten_use_tree] <;> simp

/-- C2 counterexample: flattening the aliased declaration `bar as baz` at
prefix `foo`, where `bar` is module-like, yields a leaf whose recorded
original name is the current-module marker `self`, not `bar` as the claim
states (the target module `foo::bar` is as claimed). -/
theorem c2_counterexample :
    flatten_use_tree [] ["foo"] (.Rename "bar" "baz") =
      [{ module_name := "foo::bar", statement_type := .Alias "self" "baz" }] ∧
    ("self" : String) ≠ "bar" :=
  ⟨rfl, by decide⟩

/-- C2 amended: flattening `X as Y` at prefix `P` yields exactly one leaf
of kind Aliased whose target module is `P` when `X` is item-like and
`P::X` when `X` is module-like; the leaf carries alias `Y`, and carries
original name `X` when `X` is item-like but the current-module marker
`self` when `X` is module-like (the module-like `X` having been folded
into the target module path). -/
theorem c2_aliased_leaf (anc pfx : List String) (x y : String) :
    flatten_use_tree anc pfx (.Rename x y) =
      [{ module_name :=
           if should_remove_prefix x then String.intercalate "::" pfx
           else String.intercalate "::" (pfx ++ [x]),
         statement_type :=
           .Alias (if should_remove_prefix x then x else "self") y }] := by
  rw [flatten_use_tree]
  by_cases h : should_remove_prefix x <;> simp [desugar_self_import, h]

/-- C8: flattening the grouped declaration `{A, B::{C, D}}` with prefix `P`
yields exactly three leaves whose module targets are `P::A`, `P::B::C` and
`P::B::D` in left-to-right depth-first source order, each after the
item/module trailing-segment collapse rule (`desugar_self_import`). -/
theorem c8_group_flatten_order (anc p : List String) (a b c d : String)
    (hb1 : b ≠ "self") (hb2 : b ≠ "super") :
    (flatten_use_tree anc p
        (.Group [.Name a, .Path b (.Group [.Name c, .Name d])])).map
        (fun i => i.module_name) =
      [(desugar_self_import p a).1,
       (desugar_self_import (p ++ [b]) c).1,
       (desugar_self_import (p ++ [b]) d).1] := by
  rw [flatten_use_tree]
  simp [flatten_use_trees, flatten_use_tree, hb1, hb2]

/-- Witness for C8 at the concrete declaration `crate::{foo, bar::{baz, qux}}`. -/
theorem c8_witness :
    ("bar" : String) ≠ "self" ∧ ("bar" : String) ≠ "super" ∧
    (flatten_use_tree [] ["crate"]
        (.Group [.Name "foo", .Path "bar" (.Group [.Name "baz", .Name "qux"])])).map
        (fun i => i.module_name) =
      [(desugar_self_import ["crate"] "foo").1,
       (desugar_self_import (["crate"] ++ ["bar"]) "baz").1,
       (desugar_self_import (["crate"] ++ ["bar"]) "qux").1] :=
  ⟨by decide, by decide,
   c8_group_flatten_order [] ["crate"] "foo" "bar" "baz" "qux" (by decide) (by decide)⟩

/-- The import name recorded by `desugar_self_import` is always `self` or
an item-like name, so `should_remove_prefix` holds of it. -/
theorem should_remove_desugar (pfx : List String) (ident : String) :
    should_remove_prefix (desugar_self_import pfx ident).2 = true := by
  unfold desugar_self_import
  by_cases h : should_remove_prefix ident <;> simp [h]
  decide

/-- The `get_module` collapses to the recorded module name on a `Simple` leaf
whose import name is item-like. -/
theorem get_module_simple (m : ModuleName) (n : String) (h : should_remove_prefix n = true) :
    NormalizedUseStatement.get_module ⟨m, .Simple n⟩ = m := by
  simp [NormalizedUseStatement.get_module, h]

/-- The `get_module` collapses to the recorded module name on an `Alias` leaf
whose original name is item-like. -/
theorem get_module_alias (m : ModuleName) (o n : String) (h : should_remove_prefix o = true) :
    NormalizedUseStatement.get_module ⟨m, .Alias o n⟩ = m := by
  simp [NormalizedUseStatement.get_module, h]

/-- The `get_module` is the recorded module name on a `WildCard` leaf. -/
theorem get_module_wildcard (m : ModuleName) :
    NormalizedUseStatement.get_module ⟨m, .WildCard⟩ = m := rfl

mutual

/-- Every leaf produced by the flattener satisfies
`get_module = module_name`. -/
theorem flatten_tree_get_module (anc : List String) :
    ∀ (t : UseTree) (pfx : List String),
      ∀ item ∈ flatten_use_tree anc pfx t, item.get_module = item.module_name
  | .Path ident subtree, pfx => by
    rw [flatten_use_tree]
    exact flatten_tree_get_module anc subtree _
  | .Name ident, pfx => by
    intro item h
    rw [flatten_use_tree] at h
    rw [List.mem_singleton] at h
    subst h
    exact get_module_simple _ _ (should_remove_desugar pfx ident)
  | .Rename ident rn, pfx => by
    intro item h
    rw [flatten_use_tree] at h
    rw [List.mem_singleton] at h
    subst h
    exact get_module_alias _ _ _ (should_remove_desugar pfx ident)
  | .Glob, pfx => by
    intro item h
    rw [flatten_use_tree] at h
    rw [List.mem_singleton] at h
    subst h
    exact get_module_wildcard _
  | .Group items, pfx => by
    rw [flatten_use_tree]
    exact flatten_trees_get_module anc items pfx

/-- Every leaf produced by flattening a list of trees satisfies
`get_module = module_name`. -/
theorem flatten_trees_get_module (anc : List String) :
    ∀ (ts : List UseTree) (pfx : List String),
      ∀ item ∈ flatten_use_trees anc pfx ts, item.get_module = item.module_name
  | [], pfx => by
    intro item h
    rw [flatten_use_trees] at h
    cases h
  | t :: ts, pfx => by
    intro item h
    rw [flatten_use_trees] at h
    rcases List.mem_append.mp h with h1 | h2
    · exact flatten_tree_get_module anc t pfx item h1
    · exact flatten_trees_get_module anc ts pfx item h2

end

/-- C10: every flattened leaf records an import name that is `self` or
item-like, so `get_module` returns exactly the leaf's `module_name` in
every case; hence the `target_modules` set of a visitor-produced
`UseStatement` is exactly the set of its items' `module_name`s. -/
theorem c10_get_module_identity :
    (∀ (anc pfx : List String) (t : UseTree) (item : NormalizedUseStatement),
        item ∈ flatten_use_tree anc pfx t → item.get_module = item.module_name) ∧
    (∀ (anc : List String) (t : UseTree),
        (mkUseStatement anc t).target_modules =
          ((flatten_use_tree anc [] t).map (fun i => i.module_name)).toFinset) := by
  constructor
  · exact fun anc pfx t item h => flatten_tree_get_module anc t pfx item h
  · intro anc t
    show (List.map NormalizedUseStatement.get_module (flatten_use_tree anc [] t)).toFinset = _
    congr 1
    exact List.map_congr_left (fun i hi => flatten_tree_get_module anc t [] i hi)

/-- Witness for C10 on the leaf produced by `use crate::foo`. -/
theorem c10_witness :
    ({ module_name := "crate::foo", statement_type := .Simple "self" } :
        NormalizedUseStatement) ∈ flatten_use_tree [] ["crate"] (.Name "foo") ∧
    NormalizedUseStatement.get_module
        { module_name := "crate::foo", statement_type := .Simple "self" } = "crate::foo" :=
  ⟨by decide,
   c10_get_module_identity.1 [] ["crate"] (.Name "foo") _ (by decide)⟩

/-- C1 counterexample: in a package whose entry file declares
`mod a { mod b; }` and where `src/a/b.rs` exists (the file the claim says
is resolved from the declaration-site ancestor chain `[a]`), the walker
instead resolves `b` against the file-level chain `[]`, finds neither
`src/b.rs` nor `src/b/mod.rs`, and the whole run fails with the
module-naming not-found error. -/
theorem c1_counterexample :
    list_use_statements
      [ (["Cargo.toml"], .parsed []),
        (["src", "main.rs"], .parsed [.itemMod "a" (some [.itemMod "b" none])]),
        (["src", "a", "b.rs"], .parsed []) ] []
      = some (.error (.SourceFileForModuleNotFound "b")) ∧
    fsExists
      [ (["Cargo.toml"], .parsed []),
        (["src", "main.rs"], .parsed [.itemMod "a" (some [.itemMod "b" none])]),
        (["src", "a", "b.rs"], .parsed []) ] ["src", "a", "b.rs"] = true :=
  ⟨rfl, rfl⟩

/-- C1 amended: every external sub-module declaration collected from a file
— including one nested inside an inline module body, which the visitor
records in the same flat list — is resolved against the ancestor chain of
the visited file (not the declaration site): first
`src/<chain>/<name>.rs`, else `src/<chain>/<name>/mod.rs`, else the
module-naming not-found error aborts; a resolved module is enqueued with
the file's chain extended by its name. -/
theorem c1_resolution_uses_file_chain :
    (∀ (a : String) (content rest : List Item),
      collectMods (.itemMod a (some content) :: rest) =
        .inline a :: (collectMods content ++ collectMods rest)) ∧
    (∀ (fs : FileSystem) (root : FsPath) (anc : List String) (ms : List ModStatement),
      resolveMods fs root anc ms =
        (externalIdents ms).mapM (fun id =>
          (mod_to_path fs root anc id).map (fun p => FileToVisit.mk p (anc ++ [id])))) ∧
    (∀ (fs : FileSystem) (root : FsPath) (anc : List String) (id : String),
      mod_to_path fs root anc id =
        if fsExists fs (root ++ ["src"] ++ anc ++ [id ++ ".rs"]) then
          .ok (root ++ ["src"] ++ anc ++ [id ++ ".rs"])
        else if fsExists fs (root ++ ["src"] ++ anc ++ [id, "mod.rs"]) then
          .ok (root ++ ["src"] ++ anc ++ [id, "mod.rs"])
        else .error (.SourceFileForModuleNotFound id)) := by
  refine ⟨?_, ?_, ?_⟩
  · intro a content rest
    simp [collectMods, collectModsOfItem]
  · intro fs root anc ms
    induction ms with
    | nil => rfl
    | cons m rest ih =>
      cases m with
      | inline id => simpa [resolveMods, externalIdents] using ih
      | external id =>
        rw [show externalIdents (.external id :: rest) = id :: externalIdents rest from rfl]
        rw [List.mapM_cons, ← ih]
        show (do
            let f ← mod_to_path fs root anc id
            let others ← resolveMods fs root anc rest
            Except.ok (FileToVisit.mk f (anc ++ [id]) :: others)) = _
        cases hm : mod_to_path fs root anc id with
        | error e => rfl
        | ok p =>
          cases hr : resolveMods fs root anc rest with
          | error e => rfl
          | ok l => rfl
  · intro fs root anc id
    rfl

/-- C7: a root without `Cargo.toml` makes `list_use_statements` fail with
the path-is-not-a-crate error; a root with `Cargo.toml` but neither
`src/main.rs` nor `src/lib.rs` fails with the distinct
entrypoint-not-found error; when `src/main.rs` exists it is chosen as the
entry point, in preference to `src/lib.rs`. -/
theorem c7_entrypoint_resolution (fs : FileSystem) (root : FsPath) :
    (fsExists fs (root ++ ["Cargo.toml"]) = false →
      list_use_statements fs root = some (.error .PathIsNotACrate)) ∧
    (fsExists fs (root ++ ["Cargo.toml"]) = true →
      fsExists fs (root ++ ["src", "main.rs"]) = false →
      fsExists fs (root ++ ["src", "lib.rs"]) = false →
      list_use_statements fs root = some (.error .CrateEntrypointNotFound)) ∧
    (fsExists fs (root ++ ["Cargo.toml"]) = true →
      fsExists fs (root ++ ["src", "main.rs"]) = true →
      get_crate_entrypoint fs root = .ok (root ++ ["src", "main.rs"])) := by
  refine ⟨?_, ?_, ?_⟩
  · intro h
    simp [list_use_statements, list_use_statements_full, get_crate_entrypoint, h, Except.map]
  · intro h1 h2 h3
    simp [list_use_statements, list_use_statements_full, get_crate_entrypoint, h1, h2, h3,
      Except.map]
  · intro h1 h2
    simp [get_crate_entrypoint, h1, h2]

/-- Witness for C7 on three concrete roots: no manifest, a manifest with no
entry file, and a manifest with both entry files. -/
theorem c7_witness :
    list_use_statements [] [] = some (.error .PathIsNotACrate) ∧
    list_use_statements [(["Cargo.toml"], .parsed [])] []
      = some (.error .CrateEntrypointNotFound) ∧
    get_crate_entrypoint
      [ (["Cargo.toml"], .parsed []),
        (["src", "main.rs"], .parsed []),
        (["src", "lib.rs"], .parsed []) ] []
      = .ok (["src", "main.rs"]) :=
  ⟨(c7_entrypoint_resolution [] []).1 rfl,
   (c7_entrypoint_resolution [(["Cargo.toml"], .parsed [])] []).2.1 rfl rfl rfl,
   (c7_entrypoint_resolution
      [ (["Cargo.toml"], .parsed []),
        (["src", "main.rs"], .parsed []),
        (["src", "lib.rs"], .parsed []) ] []).2.2 rfl rfl⟩

/-- C3: whenever the walker pops a not-yet-visited file whose read fails,
the whole run returns the file-not-readable error — whatever use
statements have been accumulated so far are discarded, never returned as a
partial index; likewise the file-not-parsable error for a parse failure;
and at the top level an unreadable entry file makes `list_use_statements`
itself return the file-not-readable error. -/
theorem c3_abort_on_bad_file (fs : FileSystem) (root : FsPath) (fuel : Nat)
    (f : FileToVisit) (queue : List FileToVisit) (visited : List FsPath)
    (m : UseStatementMap) (hnv : f.file ∉ visited) :
    (fsLookup fs f.file = some .unreadable →
      walk fs root (fuel + 1) (f :: queue) visited m = some (.error .FileNotReadable)) ∧
    (fsLookup fs f.file = some .unparsable →
      walk fs root (fuel + 1) (f :: queue) visited m = some (.error .FileNotParsable)) ∧
    (fsExists fs (root ++ ["Cargo.toml"]) = true →
      fsLookup fs (root ++ ["src", "main.rs"]) = some .unreadable →
      list_use_statements fs root = some (.error .FileNotReadable)) := by
  refine ⟨?_, ?_, ?_⟩
  · intro h
    rw [walk, if_neg hnv, h]
  · intro h
    rw [walk, if_neg hnv, h]
  · intro h1 h2
    have hex : fsExists fs (root ++ ["src", "main.rs"]) = true := by
      rw [fsExists, h2]
      rfl
    have hfuel : fuelBound fs = ((fsPaths fs).length * (modBound fs + 1) + 1) + 1 := rfl
    simp only [list_use_statements, list_use_statements_full, get_crate_entrypoint, h1, hex,
      Bool.not_true, Bool.false_eq_true, if_false, if_true]
    rw [hfuel, walk, if_neg (List.not_mem_nil _), h2]
    rfl

/-- Witness for C3: an unreadable file and an unparsable file each abort a
one-step walk, and an unreadable entry file aborts `list_use_statements`. -/
theorem c3_witness :
    walk [(["f.rs"], .unreadable)] [] 1 [⟨["f.rs"], []⟩] [] [] =
      some (.error .FileNotReadable) ∧
    walk [(["g.rs"], .unparsable)] [] 1 [⟨["g.rs"], []⟩] [] [] =
      some (.error .FileNotParsable) ∧
    list_use_statements
      [ (["Cargo.toml"], .parsed []), (["src", "main.rs"], .unreadable) ] [] =
      some (.error .FileNotReadable) :=
  ⟨(c3_abort_on_bad_file [(["f.rs"], .unreadable)] [] 0 ⟨["f.rs"], []⟩ [] [] []
      (by decide)).1 rfl,
   (c3_abort_on_bad_file [(["g.rs"], .unparsable)] [] 0 ⟨["g.rs"], []⟩ [] [] []
      (by decide)).2.1 rfl,
   (c3_abort_on_bad_file
      [ (["Cargo.toml"], .parsed []), (["src", "main.rs"], .unreadable) ] [] 0
      ⟨[], []⟩ [] [] [] (by decide)).2.2 rfl rfl⟩

/-- A key is in the map after `mapInsert` iff it was there before or is the
inserted key. -/
theorem mem_keys_mapInsert (m : UseStatementMap) (k x : String) (v : List UseStatement) :
    x ∈ (mapInsert m k v).map Prod.fst ↔ x ∈ m.map Prod.fst ∨ x = k := by
  induction m with
  | nil => simp [mapInsert]
  | cons e rest ih =>
    rw [mapInsert]
    by_cases he : (e.1 == k) = true
    · rw [if_pos he]
      rw [beq_iff_eq] at he
      subst he
      simp only [List.map_cons, List.mem_cons]
      tauto
    · rw [if_neg he]
      simp only [List.map_cons, List.mem_cons, ih]
      tauto

/-- The `mapInsert` preserves distinctness of the map's keys. -/
theorem mapInsert_keys_nodup (m : UseStatementMap) (k : String) (v : List UseStatement)
    (h : (m.map Prod.fst).Nodup) : ((mapInsert m k v).map Prod.fst).Nodup := by
  induction m with
  | nil => simp [mapInsert]
  | cons e rest ih =>
    rw [List.map_cons, List.nodup_cons] at h
    obtain ⟨h1, h2⟩ := h
    rw [mapInsert]
    by_cases he : (e.1 == k) = true
    · rw [if_pos he]
      rw [beq_iff_eq] at he
      subst he
      rw [List.map_cons, List.nodup_cons]
      exact ⟨h1, h2⟩
    · rw [if_neg he]
      rw [List.map_cons, List.nodup_cons]
      refine ⟨?_, ih h2⟩
      rw [mem_keys_mapInsert]
      rw [beq_iff_eq] at he
      rintro (hc | hc)
      · exact h1 hc
      · exact he hc

/-- If a walk run started from a state with distinct visited files and
distinct map keys succeeds, the final visited list and map keys are
distinct too. -/
theorem walk_ok_nodup (fs : FileSystem) (root : FsPath) :
    ∀ (fuel : Nat) (queue : List FileToVisit) (visited : List FsPath)
      (m : UseStatementMap) (res : UseStatementMap × List FsPath),
      visited.Nodup → (m.map Prod.fst).Nodup →
      walk fs root fuel queue visited m = some (.ok res) →
      res.2.Nodup ∧ (res.1.map Prod.fst).Nodup := by
  intro fuel
  induction fuel with
  | zero =>
    intro queue visited m res _ _ h
    simp [walk] at h
  | succ n ih =>
    intro queue visited m res hv hm h
    match queue with
    | [] =>
      rw [walk] at h
      rw [Option.some_inj] at h
      cases h
      exact ⟨hv, hm⟩
    | f :: queue₂ =>
      rw [walk] at h
      by_cases hin : f.file ∈ visited
      · rw [if_pos hin] at h
        exact ih queue₂ visited m res hv hm h
      · rw [if_neg hin] at h
        cases hl : fsLookup fs f.file with
        | none => simp [hl] at h
        | some o =>
          cases o with
          | unreadable => simp [hl] at h
          | unparsable => simp [hl] at h
          | parsed items =>
            cases hr : resolveMods fs root f.module_ancestors (collectMods items) with
            | error e => simp [hl, hr] at h
            | ok newFiles =>
              simp only [hl, hr] at h
              exact ih (queue₂ ++ newFiles) (f.file :: visited) _ res
                (List.nodup_cons.mpr ⟨hin, hv⟩)
                (mapInsert_keys_nodup m (fileKey root f.file)
                  (collectUses f.module_ancestors items) hm) h

/-- C5: a successful run visits (reads and parses) every file at most once
— the visited list, which records exactly the files popped, read, parsed
and recorded during the walk, has no duplicates — and the resulting import
index holds at most one entry per key, even when the same file is
enqueued repeatedly by duplicate external module declarations. -/
theorem c5_no_file_visited_twice (fs : FileSystem) (root : FsPath)
    (m : UseStatementMap) (vis : List FsPath)
    (h : list_use_statements_full fs root = some (.ok (m, vis))) :
    vis.Nodup ∧ (m.map Prod.fst).Nodup := by
  rw [list_use_statements_full] at h
  cases he : get_crate_entrypoint fs root with
  | error e => rw [he] at h; cases h
  | ok entry_point =>
    rw [he] at h
    exact walk_ok_nodup fs root (fuelBound fs) [⟨entry_point, []⟩] [] [] (m, vis)
      List.nodup_nil List.nodup_nil h

/-- Witness for C5: the entry file declares the same external module twice;
the target file is enqueued twice but visited once, and every file gets
one index entry. -/
theorem c5_witness :
    ([["src", "c.rs"], ["src", "main.rs"]] : List FsPath).Nodup ∧
    ((([("src/main.rs", []), ("src/c.rs", [])] : UseStatementMap).map Prod.fst).Nodup) :=
  c5_no_file_visited_twice
    [ (["Cargo.toml"], .parsed []),
      (["src", "main.rs"], .parsed [.itemMod "c" none, .itemMod "c" none]),
      (["src", "c.rs"], .parsed []) ] []
    [("src/main.rs", []), ("src/c.rs", [])]
    [["src", "c.rs"], ["src", "main.rs"]] rfl

/-- Resolving the external modules of a file enqueues at most one file per
collected `mod` statement. -/
theorem resolveMods_length (fs : FileSystem) (root : FsPath) (anc : List String) :
    ∀ (ms : List ModStatement) (l : List FileToVisit),
      resolveMods fs root anc ms = .ok l → l.length ≤ ms.length := by
  intro ms
  induction ms with
  | nil =>
    intro l h
    rw [resolveMods] at h
    cases h
    simp
  | cons m rest ih =>
    intro l h
    cases m with
    | inline id =>
      rw [resolveMods] at h
      exact Nat.le_succ_of_le (ih l h)
    | external id =>
      rw [resolveMods] at h
      cases hm : mod_to_path fs root anc id with
      | error e => simp [hm, Bind.bind, Except.bind] at h
      | ok p =>
        simp only [hm] at h
        cases hr : resolveMods fs root anc rest with
        | error e => simp [hr, Bind.bind, Except.bind] at h
        | ok others =>
          simp only [hr, Bind.bind, Except.bind] at h
          cases h
          simpa using Nat.succ_le_succ (ih others hr)

/-- A path with a file-system entry is among the distinct on-disk paths. -/
theorem fsLookup_mem_fsPaths (fs : FileSystem) (p : FsPath) (o : FileOutcome)
    (h : fsLookup fs p = some o) : p ∈ fsPaths fs := by
  rw [fsLookup] at h
  cases hf : fs.find? (fun e => e.1 == p) with
  | none => rw [hf] at h; cases h
  | some e =>
    have hmem : e ∈ fs := List.mem_of_find?_eq_some hf
    have hkey := List.find?_some hf
    simp only [beq_iff_eq] at hkey
    rw [fsPaths, List.mem_dedup, ← hkey]
    exact List.mem_map_of_mem Prod.fst hmem

/-- The number of `mod` statements of any parsed file is bounded by
`modBound`. -/
theorem modBound_le (fs : FileSystem) (p : FsPath) (items : List Item)
    (h : fsLookup fs p = some (.parsed items)) :
    (collectMods items).length ≤ modBound fs := by
  rw [fsLookup] at h
  cases hf : fs.find? (fun e => e.1 == p) with
  | none => rw [hf] at h; cases h
  | some e =>
    rw [hf, Option.map_some'] at h
    rw [Option.some_inj] at h
    have hmem : e ∈ fs := List.mem_of_find?_eq_some hf
    clear hf
    induction fs with
    | nil => cases hmem
    | cons x fs ih =>
      rw [modBound, List.foldr_cons]
      rcases List.mem_cons.mp hmem with hx | hx
      · subst hx
        rw [h]
        exact Nat.le_max_left _ _
      · exact Nat.le_trans (ih hx) (Nat.le_max_right _ _)

/-- Visiting a fresh on-disk file decreases the count of unvisited on-disk
files by exactly one. -/
theorem remainingCount_succ (fs : FileSystem) (p : FsPath) (visited : List FsPath)
    (hp : p ∈ fsPaths fs) (hvis : p ∉ visited) :
    remainingCount fs (p :: visited) + 1 = remainingCount fs visited := by
  have hpred : ∀ x : FsPath, decide (x ∉ p :: visited) =
      ((x != p) && decide (x ∉ visited)) := by
    intro x
    by_cases h1 : x = p <;> by_cases h2 : x ∈ visited <;> simp [h1, h2]
  rw [remainingCount, List.filter_congr (fun x _ => hpred x), ← List.filter_filter]
  have hl'nd : ((fsPaths fs).filter (fun x => decide (x ∉ visited))).Nodup :=
    (List.nodup_dedup _).filter _
  have hpl' : p ∈ (fsPaths fs).filter (fun x => decide (x ∉ visited)) :=
    List.mem_filter.mpr ⟨hp, by simp [hvis]⟩
  rw [← List.Nodup.erase_eq_filter hl'nd]
  have hlen := List.length_erase_of_mem hpl'
  have hpos : 0 < ((fsPaths fs).filter (fun x => decide (x ∉ visited))).length :=
    List.length_pos.mpr (List.ne_nil_of_mem hpl')
  rw [remainingCount]
  omega

/-- With no file visited yet, every distinct on-disk file is remaining. -/
theorem remainingCount_nil (fs : FileSystem) :
    remainingCount fs [] = (fsPaths fs).length := by
  simp [remainingCount]

/-- The walker's loop drains its queue whenever the fuel covers the current
queue plus, for every unvisited on-disk file, one processing step and the
queue entries it can add: total work is bounded by the number of distinct
on-disk files. -/
theorem walk_total (fs : FileSystem) (root : FsPath) :
    ∀ (fuel : Nat) (queue : List FileToVisit) (visited : List FsPath)
      (m : UseStatementMap),
      queue.length + remainingCount fs visited * (modBound fs + 1) + 1 ≤ fuel →
      (walk fs root fuel queue visited m).isSome := by
  intro fuel
  induction fuel with
  | zero =>
    intro queue visited m hle
    exact absurd hle (by omega)
  | succ n ih =>
    intro queue visited m hle
    match queue with
    | [] =>
      rw [walk]
      rfl
    | f :: queue₂ =>
      rw [walk]
      by_cases hin : f.file ∈ visited
      · rw [if_pos hin]
        apply ih
        simp only [List.length_cons] at hle
        omega
      · rw [if_neg hin]
        cases hl : fsLookup fs f.file with
        | none => rfl
        | some o =>
          cases o with
          | unreadable => rfl
          | unparsable => rfl
          | parsed items =>
            show (match resolveMods fs root f.module_ancestors (collectMods items) with
              | Except.error e => some (Except.error e)
              | Except.ok newFiles =>
                walk fs root n (queue₂ ++ newFiles) (f.file :: visited)
                  (mapInsert m (fileKey root f.file)
                    (collectUses f.module_ancestors items))).isSome = true
            cases hr : resolveMods fs root f.module_ancestors (collectMods items) with
            | error e => rfl
            | ok newFiles =>
              apply ih
              have h1 : newFiles.length ≤ (collectMods items).length :=
                resolveMods_length fs root f.module_ancestors (collectMods items) newFiles hr
              have h2 : (collectMods items).length ≤ modBound fs :=
                modBound_le fs f.file items hl
              have h3 : remainingCount fs (f.file :: visited) + 1 = remainingCount fs visited :=
                remainingCount_succ fs f.file visited
                  (fsLookup_mem_fsPaths fs f.file _ hl) hin
              have h4 : (remainingCount fs (f.file :: visited) + 1) * (modBound fs + 1) =
                  remainingCount fs (f.file :: visited) * (modBound fs + 1) +
                    (modBound fs + 1) := by
                rw [Nat.succ_mul]
              simp only [List.length_cons, List.length_append] at hle ⊢
              rw [← h3] at hle
              omega

/-- C9: `list_use_statements` always terminates with an answer — the fuel
`fuelBound`, proportional to the number of distinct on-disk files, always
suffices, because the visited-set guard lets each distinct file be
processed at most once even under cyclic or self-referential module
declarations. -/
theorem c9_walk_terminates (fs : FileSystem) (root : FsPath) :
    (list_use_statements fs root).isSome = true := by
  rw [list_use_statements, list_use_statements_full]
  cases get_crate_entrypoint fs root with
  | error e => rfl
  | ok entry_point =>
    have hw : (walk fs root (fuelBound fs) [⟨entry_point, []⟩] [] []).isSome = true := by
      apply walk_total
      rw [remainingCount_nil, fuelBound]
      simp
      omega
    show (Option.map (Except.map Prod.fst)
        (walk fs root (fuelBound fs) [⟨entry_point, []⟩] [] [])).isSome = true
    cases hwv : walk fs root (fuelBound fs) [⟨entry_point, []⟩] [] [] with
    | none => rw [hwv] at hw; exact hw
    | some r => rfl

/-- Looking up in a graph with one more entry. -/
theorem depLookup_cons (e : ModuleName × Finset ModuleName) (rest : ModuleDependencies)
    (k : ModuleName) :
    depLookup (e :: rest) k =
      if (e.1 == k) = true then some e.2 else depLookup rest k := by
  by_cases h : (e.1 == k) = true
  · rw [if_pos h]
    simp [depLookup, List.find?_cons, h]
  · rw [if_neg h]
    simp [depLookup, List.find?_cons, h]

/-- The effect of `depInsert` on lookups: the entry of `src` grows by the
inserted targets (an absent entry counts as empty), every other entry is
unchanged. -/
theorem depLookup_depInsert (g : ModuleDependencies) (src k : ModuleName)
    (tgts : List ModuleName) :
    depLookup (depInsert g src tgts) k =
      if k = src then some ((depLookup g k).getD ∅ ∪ tgts.toFinset)
      else depLookup g k := by
  induction g with
  | nil =>
    rw [depInsert, depLookup_cons]
    by_cases hk : k = src
    · rw [if_pos hk, if_pos (by rw [beq_iff_eq]; exact hk.symm)]
      rfl
    · rw [if_neg hk, if_neg (by rw [beq_iff_eq]; exact fun h => hk h.symm)]
  | cons e rest ih =>
    rw [depInsert]
    by_cases he : (e.1 == src) = true
    · rw [if_pos he]
      rw [beq_iff_eq] at he
      subst he
      rw [depLookup_cons, depLookup_cons]
      by_cases hk : (e.1 == k) = true
      · have hk' := hk
        rw [beq_iff_eq] at hk'
        rw [if_pos hk, if_pos hk, if_pos hk'.symm]
        rfl
      · have hk' : ¬ k = e.1 := by
          intro h
          rw [beq_iff_eq] at hk
          exact hk h.symm
        rw [if_neg hk, if_neg hk, if_neg hk']
    · rw [if_neg he]
      rw [beq_iff_eq] at he
      rw [depLookup_cons, depLookup_cons]
      by_cases hk : (e.1 == k) = true
      · have hk' := hk
        rw [beq_iff_eq] at hk'
        have hks : ¬ k = src := fun h => he (hk'.trans h)
        rw [if_neg hks, if_pos hk, if_pos hk]
      · rw [if_neg hk, if_neg hk, ih]

/-- Characterization of folding a flat record list into a graph: the entry
of `k` exists iff it existed before or some record declares `k`, and its
value is the base value united with all of `k`'s record target sets. -/
theorem depLookup_buildDeps :
    ∀ (rs : List (ModuleName × List ModuleName)) (g : ModuleDependencies) (k : ModuleName),
      depLookup (buildDeps g rs) k =
        if depLookup g k = none ∧ depRecordsFor rs k = [] then none
        else some ((depLookup g k).getD ∅ ∪ depSup rs k) := by
  intro rs
  induction rs with
  | nil =>
    intro g k
    cases hg : depLookup g k with
    | none => simp [buildDeps, depRecordsFor, depSup, hg]
    | some s => simp [buildDeps, depRecordsFor, depSup, hg]
  | cons r rs ih =>
    intro g k
    rw [show buildDeps g (r :: rs) = buildDeps (depInsert g r.1 r.2) rs from rfl]
    rw [ih, depLookup_depInsert]
    by_cases hk : k = r.1
    · rw [if_pos hk]
      have hrec : depRecordsFor (r :: rs) k = r :: depRecordsFor rs k := by
        rw [depRecordsFor, List.filter_cons,
          if_pos (by rw [beq_iff_eq]; exact hk.symm)]
        rfl
      have hsup : depSup (r :: rs) k = r.2.toFinset ⊔ depSup rs k := by
        rw [depSup, hrec]
        rw [show ((r :: depRecordsFor rs k).map (fun r => r.2.toFinset)) =
          r.2.toFinset :: (depRecordsFor rs k).map (fun r => r.2.toFinset) from rfl]
        rw [show ((r.2.toFinset :: (depRecordsFor rs k).map (fun r => r.2.toFinset) :
            List (Finset ModuleName)) : Multiset (Finset ModuleName)) =
          r.2.toFinset ::ₘ ((depRecordsFor rs k).map (fun r => r.2.toFinset) :
            List (Finset ModuleName)) from rfl]
        rw [Multiset.sup_cons]
        rfl
      rw [hrec, hsup]
      simp [Finset.union_assoc]
    · rw [if_neg hk]
      have hrec : depRecordsFor (r :: rs) k = depRecordsFor rs k := by
        rw [depRecordsFor, List.filter_cons,
          if_neg (by rw [beq_iff_eq]; exact fun h => hk h.symm)]
        rfl
      have hsup : depSup (r :: rs) k = depSup rs k := by
        rw [depSup, depSup, hrec]
      rw [hrec, hsup]

/-- Folding a prefix of statements into the graph, one file's worth at a
time, equals folding the flattened records. -/
theorem foldl_uses_eq_buildDeps (us : List UseStatement) :
    ∀ g : ModuleDependencies,
      us.foldl
        (fun acc u => depInsert acc u.source_module (u.items.map (fun i => i.module_name)))
        g =
      buildDeps g (us.map (fun u => (u.source_module, u.items.map (fun i => i.module_name)))) := by
  induction us with
  | nil => intro g; rfl
  | cons u us ih =>
    intro g
    rw [List.foldl_cons, List.map_cons]
    rw [show buildDeps g
        ((u.source_module, u.items.map (fun i => i.module_name)) ::
          us.map (fun u => (u.source_module, u.items.map (fun i => i.module_name)))) =
      buildDeps (depInsert g u.source_module (u.items.map (fun i => i.module_name)))
        (us.map (fun u => (u.source_module, u.items.map (fun i => i.module_name)))) from rfl]
    exact ih _

/-- Folding a concatenation of record lists folds them in sequence. -/
theorem buildDeps_append (g : ModuleDependencies)
    (l1 l2 : List (ModuleName × List ModuleName)) :
    buildDeps g (l1 ++ l2) = buildDeps (buildDeps g l1) l2 := by
  simp [buildDeps, List.foldl_append]

/-- The `list_dependencies` is the fold of the flat record list. -/
theorem list_dependencies_eq_buildDeps (m : UseStatementMap) :
    list_dependencies m = buildDeps [] (depRecords m) := by
  suffices h : ∀ g : ModuleDependencies,
      m.foldl
        (fun acc e => e.2.foldl
          (fun acc u => depInsert acc u.source_module (u.items.map (fun i => i.module_name)))
          acc)
        g = buildDeps g (depRecords m) from h []
  induction m with
  | nil => intro g; rfl
  | cons e m ih =>
    intro g
    rw [List.foldl_cons, ih, foldl_uses_eq_buildDeps]
    rw [show depRecords (e :: m) =
      e.2.map (fun u => (u.source_module, u.items.map (fun i => i.module_name))) ++
        depRecords m from rfl]
    rw [buildDeps_append]

/-- C6: `list_dependencies` is a pure function of the finished index whose
lookups are fully characterized — a module has a graph entry iff some
record declares it, and the entry is the union of the `module_name`s of
all its records' items (so self-dependencies and fan-in/fan-out are
preserved verbatim) — and the graph is extensionally identical for any
two iteration orders over the same index. -/
theorem c6_dependency_graph_order_independent :
    (∀ (m : UseStatementMap) (k : ModuleName),
      depLookup (list_dependencies m) k =
        if depRecordsFor (depRecords m) k = [] then none
        else some (depSup (depRecords m) k)) ∧
    (∀ (m₁ m₂ : UseStatementMap) (k : ModuleName), m₁.Perm m₂ →
      depLookup (list_dependencies m₁) k = depLookup (list_dependencies m₂) k) := by
  have hchar : ∀ (m : UseStatementMap) (k : ModuleName),
      depLookup (list_dependencies m) k =
        if depRecordsFor (depRecords m) k = [] then none
        else some (depSup (depRecords m) k) := by
    intro m k
    rw [list_dependencies_eq_buildDeps, depLookup_buildDeps]
    rw [show depLookup [] k = none from rfl]
    by_cases hrec : depRecordsFor (depRecords m) k = []
    · rw [if_pos ⟨rfl, hrec⟩, if_pos hrec]
    · rw [if_neg (fun hc => hrec hc.2), if_neg hrec]
      rw [show (Option.getD (none : Option (Finset ModuleName)) ∅) = ∅ from rfl]
      rw [Finset.empty_union]
  refine ⟨hchar, ?_⟩
  intro m₁ m₂ k hp
  rw [hchar, hchar]
  have hrecp : (depRecords m₁).Perm (depRecords m₂) := hp.flatMap_right _
  have hforp : (depRecordsFor (depRecords m₁) k).Perm (depRecordsFor (depRecords m₂) k) :=
    hrecp.filter _
  have hnil : (depRecordsFor (depRecords m₁) k = []) ↔
      (depRecordsFor (depRecords m₂) k = []) := by
    constructor
    · intro h
      have := hforp.length_eq
      rw [h] at this
      exact List.length_eq_zero.mp this.symm
    · intro h
      have := hforp.length_eq
      rw [h] at this
      exact List.length_eq_zero.mp this
  have hsup : depSup (depRecords m₁) k = depSup (depRecords m₂) k := by
    rw [depSup, depSup]
    congr 1
    exact Multiset.coe_eq_coe.mpr (hforp.map _)
  by_cases h1 : depRecordsFor (depRecords m₁) k = []
  · rw [if_pos h1, if_pos (hnil.mp h1)]
  · rw [if_neg h1, if_neg (fun hc => h1 (hnil.mpr hc)), hsup]

/-- Witness for C6: two index orders over the same two files yield the same
graph lookups. -/
theorem c6_witness :
    depLookup (list_dependencies [("a", []), ("b", [])]) "crate" =
      depLookup (list_dependencies [("b", []), ("a", [])]) "crate" :=
  c6_dependency_graph_order_independent.2 [("a", []), ("b", [])] [("b", []), ("a", [])]
    "crate" (by decide)

end Extricrate
